import Mathlib

/-!
Verification development for the pqx repository.

The definitions below are a shallow embedding of the Go source:

* `internal/logplex` (`Logplex`, `Write`, `flushLocked`, `sendLine`,
  `maybeWriteContinuation`, `isContinuation`, `Watch`, `Unwatch`) — the
  line router that demultiplexes a byte stream into lines and routes each
  line to a per-key sink or the default sink.
* `pqxtest/supervise` (`Main`, the watchdog entry point).
* the vendored `backoff` package (`Backoff.BackOff`).
* `pqx.go` (`(*Postgres).shutdown`, `Shutdown`, `ShutdownAlone`,
  `(*Postgres).Start`'s `Split` closure, `(*Postgres).pingUntilUp`).

Go byte slices are `List Nat` (each entry a byte value < 256); Go strings
(used as map keys) are their byte sequences, also `List Nat`.  Sinks are
identified by the key they are registered under; a delivery is recorded as
an event rather than mutating an opaque `io.Writer`.  Fallible sink writes
are modelled by an oracle `sinkErr` giving, for each destination and
payload, the error (if any) that the sink's `Write` returns.
-/

namespace Pqx

/-- Go `[]byte` (and Go `string` when used as a routing key). -/
abbrev Bytes := List Nat

/-- Model of `unicode.IsSpace(rune(b))` for a single byte `b` (`rune(b)` zero-extends,
so only code points 0..255 can arise: tab, LF, VT, FF, CR, space, NEL, NBSP). -/
def isSpaceByte (b : Nat) : Bool :=
  b == 9 || b == 10 || b == 11 || b == 12 || b == 13 || b == 32 ||
    b == 0x85 || b == 0xA0

/-- Model of `isContinuation` from logplex: `len(line) > 0 && unicode.IsSpace(rune(line[0]))`. -/
def isContinuation (line : Bytes) : Bool :=
  match line with
  | [] => false
  | b :: _ => isSpaceByte b

/-- Model of `bytes.Cut(s, sep)`: split around the first occurrence of `sep`;
`none` when `sep` does not occur (Go's `found = false`). -/
def cutList (sep : Bytes) : Bytes → Option (Bytes × Bytes)
  | [] => if sep = [] then some ([], []) else none
  | b :: rest =>
    if sep.isPrefixOf (b :: rest) then some ([], (b :: rest).drop sep.length)
    else
      match cutList sep rest with
      | some (pre, post) => some (b :: pre, post)
      | none => none

/-- Model of `bytes.Cut(p, newline)` specialised to the single byte `'\n'` (10),
as used by `(*Logplex).Write`. -/
def cutNl : Bytes → Option (Bytes × Bytes)
  | [] => none
  | b :: rest =>
    if b = 10 then some ([], rest)
    else
      match cutNl rest with
      | some (pre, post) => some (b :: pre, post)
      | none => none

/-- Model of `bytes.Contains(s, pat)` (`bytes.Index(s, pat) >= 0`). -/
def containsSub (pat s : Bytes) : Bool :=
  (cutList pat s).isSome

/-- A delivery event: a write to the sink registered under a key, or a
write to the default `Sink`. -/
inductive Ev where
  | keyed (k : Bytes) (payload : Bytes)
  | dflt (payload : Bytes)
deriving DecidableEq, Repr

/-- The mutable state of a `Logplex`: the set of keys with a registered
sink (`lp.sinks`, identified by key), `lp.lastSeen`, and `lp.lineBuf`. -/
structure LP where
  registered : List Bytes
  lastSeen : Bytes
  lineBuf : Bytes
deriving DecidableEq, Repr

/-- A zero-valued `Logplex` (no sinks registered, empty `lastSeen` and buffer). -/
def LP.init : LP := ⟨[], [], []⟩

/-- The caller-supplied configuration: the optional `Split` function
(`nil` means all lines go to `Sink`) and the error oracle for sink writes
(`none` destination = the default `Sink`; `some k` = the sink registered
under `k`).  An oracle returning `none` everywhere models sinks whose
`Write` always succeeds. -/
structure Cfg where
  split? : Option (Bytes → Bytes × Bytes)
  sinkErr : Option Bytes → Bytes → Option Nat

/-- All sink writes succeed. -/
def Cfg.errFree (cfg : Cfg) : Prop :=
  ∀ d p, cfg.sinkErr d p = none

/-- Model of `(*Logplex).Watch(prefix, w)`: register a sink under `prefix`
(map insert). -/
def LP.watch (lp : LP) (k : Bytes) : LP :=
  { lp with registered := if k ∈ lp.registered then lp.registered else k :: lp.registered }

/-- Model of `(*Logplex).Unwatch(prefix)`: `delete(lp.sinks, prefix)`. -/
def LP.unwatch (lp : LP) (k : Bytes) : LP :=
  { lp with registered := lp.registered.filter (fun x => x ≠ k) }

/-- Model of `(*Logplex).maybeWriteContinuation(line)`: if `line` is a continuation
and a sink is registered under `lastSeen`, write `line` there.  Returns
(`sent`, error, events). -/
def maybeWriteContinuation (cfg : Cfg) (lp : LP) (line : Bytes) :
    Bool × Option Nat × List Ev :=
  if isContinuation line then
    if lp.lastSeen ∈ lp.registered then
      match cfg.sinkErr (some lp.lastSeen) line with
      | some e => (false, some e, [])
      | none => (true, none, [.keyed lp.lastSeen line])
    else (false, none, [])
  else (false, none, [])

/-- Model of `(*Logplex).sendLine(line)` (caller holds `mu`): split the line, try the
continuation path on the message, otherwise set `lastSeen := key` and write
the message to the sink registered under `key` if there is one.  Returns
(`sent`, error, new state, events).  The Go `for prefix, w := range lp.sinks`
loop with `if key == prefix` is a map lookup. -/
def sendLine (cfg : Cfg) (f : Bytes → Bytes × Bytes) (lp : LP) (line : Bytes) :
    Bool × Option Nat × LP × List Ev :=
  let key := (f line).1
  let message := (f line).2
  match maybeWriteContinuation cfg lp message with
  | (_, some e, evs) => (false, some e, lp, evs)
  | (true, none, evs) => (true, none, lp, evs)
  | (false, none, evs) =>
    let lp' := { lp with lastSeen := key }
    if key ∈ lp'.registered then
      match cfg.sinkErr (some key) message with
      | some e => (true, some e, lp', evs)
      | none => (true, none, lp', evs ++ [.keyed key message])
    else (false, none, lp', evs)

/-- Model of `(*Logplex).flushLocked()`: route the single buffered line; the deferred
`lp.lineBuf.Reset()` empties the buffer on every path.  Returns
(error, new state, events). -/
def flushLocked (cfg : Cfg) (lp : LP) : Option Nat × LP × List Ev :=
  match cfg.split? with
  | none =>
    match cfg.sinkErr none lp.lineBuf with
    | some e => (some e, { lp with lineBuf := [] }, [])
    | none => (none, { lp with lineBuf := [] }, [.dflt lp.lineBuf])
  | some f =>
    match sendLine cfg f lp lp.lineBuf with
    | (_, some e, lp', evs) => (some e, { lp' with lineBuf := [] }, evs)
    | (true, none, lp', evs) => (none, { lp' with lineBuf := [] }, evs)
    | (false, none, lp', evs) =>
      match cfg.sinkErr none lp.lineBuf with
      | some e => (some e, { lp' with lineBuf := [] }, evs)
      | none => (none, { lp' with lineBuf := [] }, evs ++ [.dflt lp.lineBuf])

/-- The loop of `(*Logplex).Write(p)`, processed one byte at a time: each
byte joins `lineBuf`; a newline byte completes the buffered line and
triggers `flushLocked`; a flush error is returned at once, with the
remaining input untouched.  Returns (error, new state, events).
`writeLoop_cut` below proves this equal to the source's `bytes.Cut`-shaped
loop. -/
def writeLoop (cfg : Cfg) : LP → Bytes → Option Nat × LP × List Ev
  | lp, [] => (none, lp, [])
  | lp, b :: rest =>
    if b = 10 then
      match flushLocked cfg { lp with lineBuf := lp.lineBuf ++ [10] } with
      | (some e, lp2, evs) => (some e, lp2, evs)
      | (none, lp2, evs) =>
        let r := writeLoop cfg lp2 rest
        (r.1, r.2.1, evs ++ r.2.2)
    else writeLoop cfg { lp with lineBuf := lp.lineBuf ++ [b] } rest

/-- Faithfulness: `writeLoop` satisfies the recurrence of the Go loop in
`(*Logplex).Write`: cut the input at the first newline, append the part
before the newline (plus the newline) to `lineBuf`, flush, and continue
with the part after; with no newline left, buffer the rest and stop. -/
theorem writeLoop_cut (cfg : Cfg) (lp : LP) (p : Bytes) :
    writeLoop cfg lp p =
      match cutNl p with
      | some (before, after) =>
        match flushLocked cfg { lp with lineBuf := lp.lineBuf ++ before ++ [10] } with
        | (some e, lp2, evs) => (some e, lp2, evs)
        | (none, lp2, evs) =>
          let r := writeLoop cfg lp2 after
          (r.1, r.2.1, evs ++ r.2.2)
      | none => (none, { lp with lineBuf := lp.lineBuf ++ p }, []) := by
  induction p generalizing lp with
  | nil => simp [writeLoop, cutNl]
  | cons b rest ih =>
    by_cases hb : b = 10
    · subst hb
      simp only [writeLoop, if_pos rfl, cutNl, List.append_nil, reduceIte]
    · simp only [writeLoop, if_neg hb, cutNl]
      rw [ih]
      cases h : cutNl rest with
      | none =>
        simp only [h]
        simp
      | some pq =>
        obtain ⟨pre, post⟩ := pq
        simp only [h]
        have happ : lp.lineBuf ++ [b] ++ pre ++ [10] = lp.lineBuf ++ (b :: pre) ++ [10] := by
          simp
        rw [happ]

/-- Model of `(*Logplex).Write(p)`: returns `(len(p), nil)` on success and
`(0, err)` when a flush fails.  Result: (count, error, new state, events). -/
def LP.write (cfg : Cfg) (lp : LP) (p : Bytes) : Nat × Option Nat × LP × List Ev :=
  match writeLoop cfg lp p with
  | (some e, lp', evs) => (0, some e, lp', evs)
  | (none, lp', evs) => (p.length, none, lp', evs)

/-- Model of `(*Logplex).Flush()`. -/
def LP.flush (cfg : Cfg) (lp : LP) : Option Nat × LP × List Ev :=
  flushLocked cfg lp

/-- Splitter shape used throughout the repository (`testSplitter` in
`logplex_test.go`, the `Split` closure in `(*Postgres).Start`): cut the
line around the first occurrence of `sep`; with no separator the key is
empty (`nil`) and the message is the whole line. -/
def splitSep (sep : Bytes) (line : Bytes) : Bytes × Bytes :=
  match cutList sep line with
  | some (key, message) => (key, message)
  | none => ([], line)

/-- ASCII text as bytes, for readable concrete inputs. -/
def s2b (s : String) : Bytes := s.toList.map Char.toNat

/-- A sequence of `Write` calls, stopping at the first error.  Returns
(error, final state, all delivery events in order). -/
def LP.writeAll (cfg : Cfg) : LP → List Bytes → Option Nat × LP × List Ev
  | lp, [] => (none, lp, [])
  | lp, c :: cs =>
    match writeLoop cfg lp c with
    | (some e, lp1, evs) => (some e, lp1, evs)
    | (none, lp1, evs) =>
      let r := LP.writeAll cfg lp1 cs
      (r.1, r.2.1, evs ++ r.2.2)

/-- Chunk composition: writing `p ++ q` in one call behaves exactly as
writing `p` then `q` (same error, same final state, concatenated events). -/
theorem writeLoop_append (cfg : Cfg) (lp : LP) (p q : Bytes) :
    writeLoop cfg lp (p ++ q) =
      match writeLoop cfg lp p with
      | (some e, lp1, evs) => (some e, lp1, evs)
      | (none, lp1, evs) =>
        let r := writeLoop cfg lp1 q
        (r.1, r.2.1, evs ++ r.2.2) := by
  induction p generalizing lp with
  | nil => simp [writeLoop]
  | cons b rest ih =>
    by_cases hb : b = 10
    · subst hb
      simp only [List.cons_append, writeLoop, reduceIte]
      cases h : flushLocked cfg { lp with lineBuf := lp.lineBuf ++ [10] } with
      | mk e r2 =>
        obtain ⟨lp2, evs⟩ := r2
        cases e with
        | some e => simp
        | none =>
          simp only [List.append_eq]
          rw [ih]
          cases h2 : writeLoop cfg lp2 rest with
          | mk e2 r3 =>
            obtain ⟨lp3, evs3⟩ := r3
            cases e2 <;> simp [List.append_assoc]
    · simp only [List.cons_append, writeLoop, if_neg hb]
      exact ih _

/-- A sequence of error-free `Write` calls is the same as one `Write` of
the concatenation of the chunks. -/
theorem writeAll_join (cfg : Cfg) (lp : LP) (cs : List Bytes) :
    LP.writeAll cfg lp cs = writeLoop cfg lp cs.flatten := by
  induction cs generalizing lp with
  | nil => simp [LP.writeAll, writeLoop]
  | cons c cs ih =>
    simp only [LP.writeAll, List.flatten_cons]
    rw [writeLoop_append]
    cases h : writeLoop cfg lp c with
    | mk e r2 =>
      obtain ⟨lp1, evs⟩ := r2
      cases e <;> simp [ih]

/-- Dispatch of one complete buffered line when a `Split` function is in
place and sinks do not fail: the continuation path (message begins with
whitespace and a sink is registered under `lastSeen`) is tried first, then
the keyed sink, then the default `Sink`; exactly one delivery happens, the
buffer is reset, and `lastSeen` becomes the line's key on every
non-continuation route. -/
theorem flushLocked_spec (cfg : Cfg) (f : Bytes → Bytes × Bytes) (lp : LP)
    (hs : cfg.split? = some f) (he : cfg.errFree) :
    flushLocked cfg lp =
      if isContinuation (f lp.lineBuf).2 ∧ lp.lastSeen ∈ lp.registered then
        (none, { lp with lineBuf := [] }, [.keyed lp.lastSeen (f lp.lineBuf).2])
      else if (f lp.lineBuf).1 ∈ lp.registered then
        (none, { lp with lastSeen := (f lp.lineBuf).1, lineBuf := [] },
          [.keyed (f lp.lineBuf).1 (f lp.lineBuf).2])
      else
        (none, { lp with lastSeen := (f lp.lineBuf).1, lineBuf := [] },
          [.dflt lp.lineBuf]) := by
  by_cases hc : isContinuation (f lp.lineBuf).2
  · by_cases hl : lp.lastSeen ∈ lp.registered
    · simp [flushLocked, sendLine, maybeWriteContinuation, hs, he _ _, hc, hl]
    · by_cases hk : (f lp.lineBuf).1 ∈ lp.registered <;>
        simp [flushLocked, sendLine, maybeWriteContinuation, hs, he _ _, hc, hl, hk]
  · by_cases hk : (f lp.lineBuf).1 ∈ lp.registered <;>
      simp [flushLocked, sendLine, maybeWriteContinuation, hs, he _ _, hc, hk]

/-- A flush error always leaves the line buffer empty (the deferred
`lineBuf.Reset()` runs on every path). -/
theorem flushLocked_lineBuf (cfg : Cfg) (lp : LP) :
    (flushLocked cfg lp).2.1.lineBuf = [] := by
  unfold flushLocked
  split
  · split <;> rfl
  · split
    · rfl
    · rfl
    · split <;> rfl

/-- When a `Write` call stops with a sink error, the line buffer has just
been reset by the failing flush. -/
theorem writeLoop_error_lineBuf (cfg : Cfg) (lp : LP) (p : Bytes) (e : Nat)
    (lp1 : LP) (evs : List Ev)
    (h : writeLoop cfg lp p = (some e, lp1, evs)) : lp1.lineBuf = [] := by
  induction p generalizing lp evs with
  | nil => simp [writeLoop] at h
  | cons b rest ih =>
    by_cases hb : b = 10
    · subst hb
      simp only [writeLoop, reduceIte] at h
      cases hf : flushLocked cfg { lp with lineBuf := lp.lineBuf ++ [10] } with
      | mk e2 r2 =>
        obtain ⟨lp2, evs2⟩ := r2
        rw [hf] at h
        cases e2 with
        | some e2 =>
          simp at h
          obtain ⟨_, h2, _⟩ := h
          have := flushLocked_lineBuf cfg { lp with lineBuf := lp.lineBuf ++ [10] }
          rw [hf] at this
          simpa [← h2] using this
        | none =>
          simp only at h
          cases h3 : writeLoop cfg lp2 rest with
          | mk e3 r3 =>
            obtain ⟨lp3, evs3⟩ := r3
            rw [h3] at h
            simp at h
            obtain ⟨he3, hlp, _⟩ := h
            subst hlp
            exact ih lp2 evs3 (by rw [h3, he3])
    · simp only [writeLoop, if_neg hb] at h
      exact ih _ _ h

/-- Recovery property of `bytes.Cut`: a successful cut decomposes the
input as `before ++ sep ++ after`. -/
theorem cutList_recover (sep : Bytes) (s pre post : Bytes)
    (h : cutList sep s = some (pre, post)) : s = pre ++ sep ++ post := by
  induction s generalizing pre post with
  | nil =>
    by_cases hsep : sep = ([] : Bytes)
    · simp [cutList, hsep] at h
      obtain ⟨h1, h2⟩ := h
      subst h1
      subst h2
      simp [hsep]
    · simp [cutList, hsep] at h
  | cons b rest ih =>
    by_cases hpre : sep.isPrefixOf (b :: rest)
    · simp only [cutList, if_pos hpre] at h
      obtain ⟨t, ht⟩ := (List.isPrefixOf_iff_prefix.mp hpre)
      simp at h
      obtain ⟨h1, h2⟩ := h
      subst h1
      rw [← h2, ← ht]
      simp [List.drop_left]
    · simp only [cutList, if_neg hpre] at h
      cases hrec : cutList sep rest with
      | none => rw [hrec] at h; simp at h
      | some pq =>
        obtain ⟨pre0, post0⟩ := pq
        rw [hrec] at h
        simp at h
        rw [← h.1, ← h.2]
        simpa using ih pre0 post0 hrec

/-! Concrete routing scenarios, with the separator `"::"` used by
`logplex_test.go`'s `testSplitter`. -/

/-- The separator `"::"`. -/
def sepColons : Bytes := s2b "::"

/-- A `Logplex` whose `Split` cuts on `"::"` and whose sinks never fail. -/
def cfgColons : Cfg := ⟨some (splitSep sepColons), fun _ _ => none⟩

/-- A `Logplex` whose `Split` cuts on `"::"` and whose sinks all fail with
error 7. -/
def cfgFail : Cfg := ⟨some (splitSep sepColons), fun _ _ => some 7⟩

/-- State after `Watch("a", ...)` on a fresh `Logplex`. -/
def lpA : LP := LP.init.watch (s2b "a")

/-- State after `Watch("a", ...)` and `Watch("b", ...)`. -/
def lpAB : LP := (LP.init.watch (s2b "a")).watch (s2b "b")

/-- State after `Watch("p", ...)` and `Watch("q", ...)`. -/
def lpPQ : LP := (LP.init.watch (s2b "p")).watch (s2b "q")

/-- C1: the routed output of the Logplex depends only on the concatenated
byte stream, not on how the bytes are chunked across `Write` calls; and in
the concrete scenario — separator `"::"`, a sink watched for key `"a"`,
writes `"a::hello\n"`, `"a::wor"`, `"ld\n"` — that sink receives exactly
`"hello\n"` then `"world\n"` in two separate calls, with nothing delivered
to the default sink. -/
theorem logplex_chunking_invariant :
    (∀ (cfg : Cfg) (lp : LP) (chunks chunks' : List Bytes),
        chunks.flatten = chunks'.flatten →
        LP.writeAll cfg lp chunks = LP.writeAll cfg lp chunks') ∧
    (LP.writeAll cfgColons lpA [s2b "a::hello\n", s2b "a::wor", s2b "ld\n"]).2.2 =
        [Ev.keyed (s2b "a") (s2b "hello\n"), Ev.keyed (s2b "a") (s2b "world\n")] := by
  constructor
  · intro cfg lp cs ds h
    rw [writeAll_join, writeAll_join, h]
  · decide

/-- Witness for C1: splitting `"a::hello\n"` as `"a::hel"` + `"lo\n"`
routes identically to writing it whole. -/
theorem logplex_chunking_invariant_witness :
    LP.writeAll cfgColons lpA [s2b "a::hel", s2b "lo\n"] =
      LP.writeAll cfgColons lpA [s2b "a::hello\n"] :=
  logplex_chunking_invariant.1 cfgColons lpA _ _ (by decide)

/-- Counterexample to C2's dispatch priority: with sinks registered for
both `"a"` and `"b"` and `lastSeen = "b"`, the line `"a:: x\n"` — whose
key `"a"` has a registered sink — is delivered to `"b"`'s sink via the
continuation path (its message begins with a space), not to `"a"`'s sink. -/
theorem dispatch_keyed_priority_cex :
    (splitSep sepColons (s2b "a:: x\n")).1 = s2b "a" ∧
    s2b "a" ∈ lpAB.registered ∧
    (LP.writeAll cfgColons lpAB [s2b "b::y\n", s2b "a:: x\n"]).2.2 =
      [Ev.keyed (s2b "b") (s2b "y\n"), Ev.keyed (s2b "b") (s2b " x\n")] ∧
    ((LP.writeAll cfgColons lpAB [s2b "b::y\n", s2b "a:: x\n"]).2.2).filter
        (fun e => match e with | .keyed k _ => k == s2b "a" | .dflt _ => false) = [] := by
  decide

/-- C2 as amended: with a `Split` function in place and sinks that do not
fail, exactly one sink receives each complete line — no drop, no
duplication — but the continuation path has priority: the sink registered
for `lastSeen` receives the message when the message begins with
whitespace and that sink exists; only otherwise does the key's registered
sink receive it, and the default sink receives the line when neither
applies. -/
theorem dispatch_exactly_one_sink (cfg : Cfg) (f : Bytes → Bytes × Bytes)
    (lp : LP) (hs : cfg.split? = some f) (he : cfg.errFree) :
    (∃ e, (flushLocked cfg lp).2.2 = [e]) ∧
    (flushLocked cfg lp).2.2 =
      (if isContinuation (f lp.lineBuf).2 ∧ lp.lastSeen ∈ lp.registered then
        [Ev.keyed lp.lastSeen (f lp.lineBuf).2]
      else if (f lp.lineBuf).1 ∈ lp.registered then
        [Ev.keyed (f lp.lineBuf).1 (f lp.lineBuf).2]
      else [Ev.dflt lp.lineBuf]) := by
  rw [flushLocked_spec cfg f lp hs he]
  by_cases hc : isContinuation (f lp.lineBuf).2 ∧ lp.lastSeen ∈ lp.registered
  · simp [hc]
  · by_cases hk : (f lp.lineBuf).1 ∈ lp.registered <;> simp [hc, hk]

/-- Witness for the amended C2 at a concrete line. -/
theorem dispatch_exactly_one_sink_witness :
    ∃ e, (flushLocked cfgColons { lpAB with lineBuf := s2b "a::m\n" }).2.2 = [e] :=
  (dispatch_exactly_one_sink cfgColons (splitSep sepColons)
    { lpAB with lineBuf := s2b "a::m\n" } rfl (fun _ _ => rfl)).1

/-- Counterexample to C3: the line `"p::\tdetail\n"` contains the
separator and its key `"p"` has a registered sink, yet — because its
message starts with a tab and `lastSeen = "q"` has a registered sink — it
is routed as a continuation to `"q"`'s sink, and `lastSeen` is not set to
`"p"`. -/
theorem keyed_line_continuation_cex :
    containsSub sepColons (s2b "p::\tdetail\n") = true ∧
    (splitSep sepColons (s2b "p::\tdetail\n")).1 = s2b "p" ∧
    s2b "p" ∈ lpPQ.registered ∧
    (LP.writeAll cfgColons lpPQ [s2b "q::m\n", s2b "p::\tdetail\n"]).2.2 =
      [Ev.keyed (s2b "q") (s2b "m\n"), Ev.keyed (s2b "q") (s2b "\tdetail\n")] ∧
    ((LP.writeAll cfgColons lpPQ [s2b "q::m\n", s2b "p::\tdetail\n"]).2.1).lastSeen =
      s2b "q" := by
  decide

/-- C3 as amended: a line containing the separator is split into key
(text before) and message (text after); it is treated as keyed — message
delivered to the key's registered sink when there is one, `lastSeen` set
to the key — only when the continuation path does not fire first; when
its message begins with whitespace and a sink is registered for
`lastSeen`, the line is routed as a continuation of `lastSeen` instead,
leaving `lastSeen` unchanged. -/
theorem keyed_line_routing (cfg : Cfg) (sep : Bytes) (lp : LP)
    (key msg : Bytes)
    (hs : cfg.split? = some (splitSep sep)) (he : cfg.errFree)
    (hcut : cutList sep lp.lineBuf = some (key, msg)) :
    (¬ (isContinuation msg = true ∧ lp.lastSeen ∈ lp.registered) →
       ((flushLocked cfg lp).2.1.lastSeen = key ∧
        (key ∈ lp.registered →
          (flushLocked cfg lp).2.2 = [Ev.keyed key msg]))) ∧
    ((isContinuation msg = true ∧ lp.lastSeen ∈ lp.registered) →
       ((flushLocked cfg lp).2.2 = [Ev.keyed lp.lastSeen msg] ∧
        (flushLocked cfg lp).2.1.lastSeen = lp.lastSeen)) := by
  have hf : splitSep sep lp.lineBuf = (key, msg) := by simp [splitSep, hcut]
  rw [flushLocked_spec cfg (splitSep sep) lp hs he, hf]
  constructor
  · intro hnc
    by_cases hk : key ∈ lp.registered <;> simp [hnc, hk]
  · intro hc
    simp [hc]

/-- Witness for the amended C3: the line `"a::m\n"` buffered with no
matching continuation state is keyed to `"a"`'s sink. -/
theorem keyed_line_routing_witness :
    (flushLocked cfgColons { lpA with lineBuf := s2b "a::m\n" }).2.1.lastSeen = s2b "a" ∧
    ((s2b "a" ∈ ({ lpA with lineBuf := s2b "a::m\n" } : LP).registered) →
      (flushLocked cfgColons { lpA with lineBuf := s2b "a::m\n" }).2.2 =
        [Ev.keyed (s2b "a") (s2b "m\n")]) :=
  (keyed_line_routing cfgColons sepColons { lpA with lineBuf := s2b "a::m\n" }
    (s2b "a") (s2b "m\n") rfl (fun _ _ => rfl) (by decide)).1 (by decide)

/-- Counterexample to C4: after the keyed line `"a::x\n"` sets
`lastSeen = "a"`, routing the unattributed line `"zero\n"` (no separator,
no leading whitespace) overwrites `lastSeen` with the empty key instead
of leaving it unchanged. -/
theorem lastSeen_update_cex :
    ((LP.writeAll cfgColons LP.init [s2b "a::x\n"]).2.1).lastSeen = s2b "a" ∧
    cutList sepColons (s2b "zero\n") = none ∧
    isContinuation (s2b "zero\n") = false ∧
    ((LP.writeAll cfgColons LP.init [s2b "a::x\n", s2b "zero\n"]).2.1).lastSeen = [] ∧
    s2b "a" ≠ ([] : Bytes) := by
  decide

/-- C4 as amended: `lastSeen` is left unchanged exactly when the line is
delivered through the continuation path; on every other line — keyed or
unattributed — it is overwritten with the line's key (the empty key for
separator-less lines). -/
theorem lastSeen_update_rule (cfg : Cfg) (f : Bytes → Bytes × Bytes) (lp : LP)
    (hs : cfg.split? = some f) (he : cfg.errFree) :
    (flushLocked cfg lp).2.1.lastSeen =
      (if isContinuation (f lp.lineBuf).2 ∧ lp.lastSeen ∈ lp.registered
       then lp.lastSeen
       else (f lp.lineBuf).1) := by
  rw [flushLocked_spec cfg f lp hs he]
  by_cases hc : isContinuation (f lp.lineBuf).2 ∧ lp.lastSeen ∈ lp.registered
  · simp [hc]
  · by_cases hk : (f lp.lineBuf).1 ∈ lp.registered <;> simp [hc, hk]

/-- Witness for the amended C4. -/
theorem lastSeen_update_rule_witness :
    (flushLocked cfgColons { lpA with lineBuf := s2b "zero\n" }).2.1.lastSeen =
      (if isContinuation (splitSep sepColons (s2b "zero\n")).2 ∧
          ({ lpA with lineBuf := s2b "zero\n" } : LP).lastSeen ∈
            ({ lpA with lineBuf := s2b "zero\n" } : LP).registered
       then ({ lpA with lineBuf := s2b "zero\n" } : LP).lastSeen
       else (splitSep sepColons (s2b "zero\n")).1) :=
  lastSeen_update_rule cfgColons (splitSep sepColons)
    { lpA with lineBuf := s2b "zero\n" } rfl (fun _ _ => rfl)

/-- C9: with the separator splitter, every payload delivered to the
default sink is the verbatim buffered line (key prefix and separator
included), while every payload delivered to a keyed sink is only the
message part: for a separator-bearing line `key ++ sep ++ msg`, the
delivered payload is `msg`, with the key prefix stripped. -/
theorem payload_shapes (cfg : Cfg) (sep : Bytes) (lp : LP)
    (hs : cfg.split? = some (splitSep sep)) (he : cfg.errFree) :
    (∀ payload, Ev.dflt payload ∈ (flushLocked cfg lp).2.2 →
       payload = lp.lineBuf) ∧
    (∀ k payload, Ev.keyed k payload ∈ (flushLocked cfg lp).2.2 →
       payload = (splitSep sep lp.lineBuf).2 ∧
       (∀ key msg, cutList sep lp.lineBuf = some (key, msg) →
          lp.lineBuf = key ++ sep ++ msg ∧ payload = msg)) := by
  rw [flushLocked_spec cfg (splitSep sep) lp hs he]
  by_cases hc : isContinuation (splitSep sep lp.lineBuf).2 ∧ lp.lastSeen ∈ lp.registered
  · refine ⟨?_, ?_⟩
    · intro payload hmem
      simp [hc] at hmem
    · intro k payload hmem
      simp [hc] at hmem
      refine ⟨hmem.2, ?_⟩
      intro key msg hcut
      refine ⟨cutList_recover sep lp.lineBuf key msg hcut, ?_⟩
      rw [hmem.2]
      simp [splitSep, hcut]
  · by_cases hk : (splitSep sep lp.lineBuf).1 ∈ lp.registered
    · refine ⟨?_, ?_⟩
      · intro payload hmem
        simp [hc, hk] at hmem
      · intro k payload hmem
        simp [hc, hk] at hmem
        refine ⟨hmem.2, ?_⟩
        intro key msg hcut
        refine ⟨cutList_recover sep lp.lineBuf key msg hcut, ?_⟩
        rw [hmem.2]
        simp [splitSep, hcut]
    · refine ⟨?_, ?_⟩
      · intro payload hmem
        simp [hc, hk] at hmem
        exact hmem
      · intro k payload hmem
        simp [hc, hk] at hmem

/-- Witness for C9: for the keyed delivery of `"a::m\n"`, the payload is
the message part `"m\n"`. -/
theorem payload_shapes_witness :
    s2b "m\n" = (splitSep sepColons (s2b "a::m\n")).2 :=
  ((payload_shapes cfgColons sepColons { lpA with lineBuf := s2b "a::m\n" }
      rfl (fun _ _ => rfl)).2
    (s2b "a") (s2b "m\n") (by decide)).1

/-- C10: when a downstream sink write fails during `Write`, the call
returns a byte count of 0 together with the sink's error no matter how
much input was already consumed, the erroring line's buffered content is
discarded (the line buffer is reset), and any input bytes after the
erroring line are never processed: appending further input after the
error point changes nothing. -/
theorem write_error_semantics (cfg : Cfg) (lp : LP) (p q : Bytes) (e : Nat)
    (lp1 : LP) (evs : List Ev)
    (h : writeLoop cfg lp p = (some e, lp1, evs)) :
    LP.write cfg lp (p ++ q) = (0, some e, lp1, evs) ∧ lp1.lineBuf = [] := by
  have happ := writeLoop_append cfg lp p q
  rw [h] at happ
  refine ⟨?_, writeLoop_error_lineBuf cfg lp p e lp1 evs h⟩
  simp only [LP.write, happ]

/-- Witness for C10: with sinks that fail with error 7, writing
`"x\n" ++ "rest\n"` returns `(0, error 7)` and an empty line buffer; the
bytes `"rest\n"` are never routed. -/
theorem write_error_semantics_witness :
    LP.write cfgFail LP.init (s2b "x\n" ++ s2b "rest\n") =
      (0, some 7, LP.init, []) ∧ (LP.init : LP).lineBuf = [] :=
  write_error_semantics cfgFail LP.init (s2b "x\n") (s2b "rest\n") 7 LP.init []
    (by decide)

/-! Embedding of `pqxtest/supervise/supervise.go`. -/

/-- Observable actions of the watchdog entry point `supervise.Main`. -/
inductive SupEv where
  | readEnvPid              -- os.Getenv("_PQX_SUP_PID") + strconv.Atoi
  | readStdin               -- awaitParentDeath(): blocking os.Stdin.Read
  | findProcess (pid : Int) -- os.FindProcess(pid)
  | signalQuit (pid : Int)  -- p.Signal(syscall.SIGQUIT)
  | fatalExit               -- log.Fatalf (exits with a nonzero status)
  | exitZero                -- os.Exit(0)
deriving DecidableEq, Repr

/-- Model of `supervise.Main` as the ordered trace of its observable
actions.  `pid` is the integer `strconv.Atoi` parses from `_PQX_SUP_PID`
(0 when the variable is unset or unparsable — the `Atoi` error is
discarded); `findErr` and `sigErr` say whether `os.FindProcess` and
`p.Signal` fail. -/
def superviseMain (pid : Int) (findErr sigErr : Bool) : List SupEv :=
  .readEnvPid ::
    (if pid = 0 then []
     else .readStdin :: .findProcess pid ::
       (if findErr then [.fatalExit]
        else .signalQuit pid ::
          (if sigErr then [.fatalExit] else [.exitZero])))

/-- C5: the watchdog reads `_PQX_SUP_PID` first, exactly once, before any
other action; with a nonzero pid it blocks on the stdin (sentinel pipe)
read and only after that read returns does it send SIGQUIT to that pid
and exit 0; with a zero/unset pid it returns immediately, performing no
read and signaling nothing. -/
theorem supervise_main_order :
    (∀ (pid : Int) (fe se : Bool),
       (superviseMain pid fe se).head? = some .readEnvPid ∧
       .readEnvPid ∉ (superviseMain pid fe se).tail) ∧
    (∀ pid : Int, pid ≠ 0 →
       superviseMain pid false false =
         [.readEnvPid, .readStdin, .findProcess pid, .signalQuit pid,
          .exitZero]) ∧
    (∀ fe se : Bool, superviseMain 0 fe se = [.readEnvPid]) := by
  refine ⟨?_, ?_, ?_⟩
  · intro pid fe se
    constructor
    · simp [superviseMain]
    · by_cases hp : pid = 0
      · simp [superviseMain, hp]
      · cases fe <;> cases se <;> simp [superviseMain, hp]
  · intro pid hp
    simp [superviseMain, hp]
  · intro fe se
    simp [superviseMain]

/-- Witness for C5 at pid 42. -/
theorem supervise_main_order_witness :
    superviseMain 42 false false =
      [.readEnvPid, .readStdin, .findProcess 42, .signalQuit 42, .exitZero] :=
  supervise_main_order.2.1 42 (by decide)

/-! Embedding of `(*Postgres).shutdown` from pqx.go. -/

/-- Observable actions of `(*Postgres).shutdown`. -/
inductive ShEv where
  | dbClose    -- p.db.Close()
  | signalQuit -- p.cmd.Process.Signal(syscall.SIGQUIT)
  | wait       -- p.cmd.Wait()
deriving DecidableEq, Repr

/-- Model of `(*Postgres).shutdown(alone)`: close the database connection
(its error is discarded); when `alone`, return nil at once; otherwise
send SIGQUIT — returning the signal error without waiting when it fails —
then wait on the child, returning the wait error if any.  `sigErr` and
`waitErr` are the errors those process operations would return. -/
def shutdownPg (alone : Bool) (sigErr waitErr : Option Nat) :
    Option Nat × List ShEv :=
  if alone then (none, [.dbClose])
  else
    match sigErr with
    | some e => (some e, [.dbClose, .signalQuit])
    | none =>
      match waitErr with
      | some e => (some e, [.dbClose, .signalQuit, .wait])
      | none => (none, [.dbClose, .signalQuit, .wait])

/-- Model of `(*Postgres).Shutdown()` (`shutdown(false)`). -/
def ShutdownPg (sigErr waitErr : Option Nat) : Option Nat × List ShEv :=
  shutdownPg false sigErr waitErr

/-- Model of `(*Postgres).ShutdownAlone()` (`shutdown(true)`). -/
def ShutdownAlonePg (sigErr waitErr : Option Nat) : Option Nat × List ShEv :=
  shutdownPg true sigErr waitErr

/-- C6: `Shutdown` closes the database connection, sends SIGQUIT (not a
hard kill), and after a successful signal always waits on the child to
reap its exit status before returning, propagating any signal or wait
error; `ShutdownAlone` closes the connection and returns nil, sending no
signal and performing no wait, leaving the child running. -/
theorem shutdown_semantics :
    ShutdownPg none none = (none, [.dbClose, .signalQuit, .wait]) ∧
    (∀ e : Nat, ShutdownPg none (some e) =
      (some e, [.dbClose, .signalQuit, .wait])) ∧
    (∀ (e : Nat) (w : Option Nat), ShutdownPg (some e) w =
      (some e, [.dbClose, .signalQuit])) ∧
    (∀ s w : Option Nat, ShutdownAlonePg s w = (none, [.dbClose])) :=
  ⟨rfl, fun _ => rfl, fun _ _ => rfl, fun _ _ => rfl⟩

/-! Embedding of the readiness machinery of `(*Postgres).Start` and
`(*Postgres).pingUntilUp` from pqx.go. -/

/-- The marker substring `(*Postgres).Start`'s `Split` closure greps log
lines for before cancelling the ready context. -/
def readyMarker : Bytes := s2b "database system is ready to accept connections"

/-- The magic separator `" ::pqx:: "` installed via `log_line_prefix`. -/
def pqxMagicSep : Bytes := s2b " ::pqx:: "

/-- Model of the `Split` closure in `(*Postgres).Start`: the (key,
message) cut on the magic separator (`(nil, line)` when absent), paired
with whether `ready()` is invoked — exactly when the line contains the
readiness marker. -/
def startSplit (line : Bytes) : (Bytes × Bytes) × Bool :=
  (splitSep pqxMagicSep line, containsSub readyMarker line)

/-- Occurrence: `bytes.Contains` finds a pattern occurring anywhere in the
input. -/
theorem containsSub_of_parts (pat pre post : Bytes) :
    containsSub pat (pre ++ (pat ++ post)) = true := by
  induction pre with
  | nil =>
    rw [List.nil_append]
    cases pat with
    | nil => cases post <;> simp [containsSub, cutList]
    | cons a t =>
      have hpre : (a :: t).isPrefixOf ((a :: t) ++ post) = true :=
        List.isPrefixOf_iff_prefix.mpr (List.prefix_append _ _)
      simp [containsSub, cutList, hpre]
  | cons b pre ih =>
    rw [List.cons_append]
    cases hpre : pat.isPrefixOf (b :: (pre ++ (pat ++ post))) with
    | true => simp [containsSub, cutList, hpre]
    | false =>
      simp only [containsSub, cutList, hpre]
      obtain ⟨pq, hpq⟩ :=
        Option.isSome_iff_exists.mp (by simpa [containsSub] using ih)
      simp [hpq]

/-- One iteration's environment for `(*Postgres).pingUntilUp`: the result
of `db.PingContext` (`none` = success), whether the caller's context is
already cancelled at the loop head, and whether `ready()` fires
(cancelling `readyCtx`) while this iteration's ping or backoff sleep is
pending — in which case `BackOff`'s select on `readyCtx.Done` (or its
fast path) keeps it from sleeping out the full delay. -/
structure PingIter where
  pingErr : Option Nat
  ctxDone : Bool
  readyDuringSleep : Bool
deriving DecidableEq, Repr

/-- Outcome of the readiness loop over a finite observation window. -/
inductive PingRes where
  | readyNil      -- readyCtx.Done was closed: return nil
  | ctxCancelled  -- ctx.Done: return ctx.Err()
  | pingOk        -- the ping succeeded: return nil
  | fuelOut       -- window exhausted (the Go loop would keep iterating)
deriving DecidableEq, Repr

/-- A backoff sleep as the loop observes it: run to completion, or cut
short by `readyCtx` cancellation. -/
inductive SleepEv where
  | full
  | interrupted
deriving DecidableEq, Repr

/-- Model of `(*Postgres).pingUntilUp`: each iteration checks
`readyCtx.Done`, then `ctx.Done`, then pings; a failed ping sleeps via
`b.BackOff(p.readyCtx, err)`, and a `ready()` fired during that wait cuts
the sleep short and is seen by the next iteration's first check. -/
def pingLoop (ready : Bool) : List PingIter → PingRes × List SleepEv
  | [] => (.fuelOut, [])
  | it :: rest =>
    if ready then (.readyNil, [])
    else if it.ctxDone then (.ctxCancelled, [])
    else
      match it.pingErr with
      | none => (.pingOk, [])
      | some _ =>
        let sl := if it.readyDuringSleep then SleepEv.interrupted
                  else SleepEv.full
        let r := pingLoop it.readyDuringSleep rest
        (r.1, sl :: r.2)

/-- Once the ready context is cancelled, the next iteration returns nil
immediately, with no further sleeping. -/
theorem pingLoop_ready (it : PingIter) (rest : List PingIter) :
    pingLoop true (it :: rest) = (.readyNil, []) := by
  simp [pingLoop]

/-- C7: a log line containing the readiness marker makes the `Split`
closure fire `ready()`; in the readiness loop, when `ready()` fires
during the backoff wait of a failing iteration, that sleep is cut short
and the loop returns success at its next check — every earlier failing
iteration slept its backoff in full, and no sleep at all happens
afterwards; a successful ping stops the loop immediately. -/
theorem ready_marker_short_circuit :
    (∀ pre post : Bytes, (startSplit (pre ++ readyMarker ++ post)).2 = true) ∧
    (∀ (pre : List PingIter) (it : PingIter) (post : List PingIter),
       (∀ j ∈ pre, j.pingErr ≠ none ∧ j.ctxDone = false ∧
          j.readyDuringSleep = false) →
       it.pingErr ≠ none → it.ctxDone = false → it.readyDuringSleep = true →
       post ≠ [] →
       pingLoop false (pre ++ it :: post) =
         (.readyNil, List.replicate pre.length SleepEv.full ++
            [SleepEv.interrupted])) ∧
    (∀ (it : PingIter) (rest : List PingIter),
       it.ctxDone = false → it.pingErr = none →
       pingLoop false (it :: rest) = (.pingOk, [])) := by
  refine ⟨?_, ?_, ?_⟩
  · intro pre post
    have h := containsSub_of_parts readyMarker pre post
    simpa [startSplit] using h
  · intro pre it post hpre hping hctx hrds hpost
    induction pre with
    | nil =>
      obtain ⟨e, he⟩ := Option.ne_none_iff_exists'.mp hping
      obtain ⟨p2, post'⟩ := List.exists_cons_of_ne_nil hpost
      obtain ⟨ps, hps⟩ := post'
      subst hps
      simp [pingLoop, hctx, he, hrds, pingLoop_ready]
    | cons j pre ih =>
      obtain ⟨hjp, hjc, hjr⟩ := hpre j (by simp)
      obtain ⟨e, he⟩ := Option.ne_none_iff_exists'.mp hjp
      have ih2 := ih (fun x hx => hpre x (by simp [hx]))
      simp only [List.cons_append, pingLoop, hjc, he, hjr]
      simp [ih2, List.replicate_succ]
  · intro it rest hctx hping
    simp [pingLoop, hctx, hping]

/-- Witness for C7 at a concrete window: one failing iteration with an
in-flight `ready()`, then one more iteration. -/
theorem ready_marker_short_circuit_witness :
    pingLoop false
        ([] ++ (⟨some 3, false, true⟩ : PingIter) ::
          [(⟨some 3, false, false⟩ : PingIter)]) =
      (.readyNil, List.replicate (List.length ([] : List PingIter))
          SleepEv.full ++ [SleepEv.interrupted]) :=
  ready_marker_short_circuit.2.1 [] ⟨some 3, false, true⟩
    [⟨some 3, false, false⟩] (by simp) (by simp) rfl rfl (by simp)

/-! Embedding of the vendored backoff package.  Go's `int` and
`time.Duration` are 64-bit two's-complement integers, so every arithmetic
step in `BackOff` wraps modulo 2⁶⁴ into `[-2⁶³, 2⁶³)`. -/

/-- Two's-complement wrap-around of 64-bit signed arithmetic
(9223372036854775808 = 2⁶³, 18446744073709551616 = 2⁶⁴). -/
def wrap64 (x : Int) : Int :=
  (x + 9223372036854775808) % 18446744073709551616 - 9223372036854775808

/-- Within the int64 range, wrapping is the identity. -/
theorem wrap64_eq_self (x : Int) (h1 : -9223372036854775808 ≤ x)
    (h2 : x < 9223372036854775808) : wrap64 x = x := by
  unfold wrap64
  rw [Int.emod_eq_of_lt (by linarith) (by linarith)]
  ring

/-- State of a `Backoff`: the consecutive-failure count `n` (a Go `int`)
and `maxBackoff` (a `time.Duration`), both int64 values. -/
structure BackoffB where
  n : Int
  maxBackoff : Int
deriving DecidableEq, Repr

/-- Model of `(*Backoff).BackOff(ctx, err)` up to the sleep: `hasErr` is
`err != nil`, `ctxDone` is `ctx.Err() != nil`.  Returns the updated state
and the pre-jitter delay in nanoseconds (`none` when the call returns
without sleeping).  A nil error resets `n` before the context is even
examined.  The delay `time.Duration(b.n*b.n) * 10 * time.Millisecond`
wraps at each int64 multiplication, as does `b.n++`. -/
def backOff (b : BackoffB) (hasErr : Bool) (ctxDone : Bool) :
    BackoffB × Option Int :=
  if !hasErr then ({ b with n := 0 }, none)
  else if ctxDone then (b, none)
  else
    let n := wrap64 (b.n + 1)
    let d0 := wrap64 (wrap64 (wrap64 (n * n) * 10) * 1000000)
    let d := if d0 > b.maxBackoff then b.maxBackoff else d0
    ({ b with n := n }, some d)

/-- Model of the jitter `time.Duration(float64(d) * (rand.Float64() + 0.5))`
in exact rational arithmetic; `r` is the `rand.Float64()` draw in `[0, 1)`. -/
def scaleJitter (d : Int) (r : ℚ) : ℚ := (d : ℚ) * (r + 1/2)

/-- Counterexample to C8's universal delay formula: at the 960384th
consecutive failure (with the 1-second `maxBackoff` that pqx uses) the
int64 product `n²·10ms` wraps to a negative duration, the `d > maxBackoff`
cap does not engage, and the pre-jitter delay is that negative value —
not `min(maxBackoff, 10ms·n²) = maxBackoff`. -/
theorem backoff_overflow_cex :
    (backOff ⟨960383, 1000000000⟩ true false).2 =
        some (-9223369799149551616) ∧
    ((-9223369799149551616 : Int) < 0) ∧
    min (1000000000 : Int) (960384 * 960384 * 10000000) = 1000000000 ∧
    (-9223369799149551616 : Int) ≠
      min (1000000000 : Int) (960384 * 960384 * 10000000) := by
  refine ⟨?_, by norm_num, by norm_num [min_def], by norm_num [min_def]⟩
  decide

/-- C8 as amended: a `BackOff` call with a nil error resets the
consecutive-failure count to zero, so the next failure's delay equals the
first-failure delay (not a continuation of the prior streak); a call with
a non-nil error increments the count to `n` and — as long as `10ms·n²`
does not overflow int64, i.e. `n ≤ 960383` — sleeps
`min(maxBackoff, 10ms·n²)` scaled by a uniform random factor in
`[0.5, 1.5]`; at larger counts the wrapped int64 arithmetic can make the
delay negative instead (the timer then fires immediately). -/
theorem backoff_reset_and_delay :
    (∀ (b : BackoffB) (c : Bool), backOff b false c = ({ b with n := 0 }, none)) ∧
    (∀ (b : BackoffB) (c : Bool),
       (backOff (backOff b false c).1 true false).2 =
         (backOff ⟨0, b.maxBackoff⟩ true false).2) ∧
    (∀ b : BackoffB, 0 ≤ b.n → b.n < 960383 →
       backOff b true false =
         ({ b with n := b.n + 1 },
          some (min b.maxBackoff ((b.n + 1) * (b.n + 1) * 10000000)))) ∧
    (∀ (d : Int) (r : ℚ), 0 ≤ d → 0 ≤ r → r < 1 →
       (d : ℚ) * (1 / 2) ≤ scaleJitter d r ∧
         scaleJitter d r ≤ (d : ℚ) * (3 / 2)) := by
  refine ⟨fun b c => rfl, fun b c => rfl, ?_, ?_⟩
  · intro b h0 hlt
    have hn1 : (0 : Int) ≤ b.n + 1 := by linarith
    have hn2 : b.n + 1 ≤ 960383 := by linarith
    have hw1 : wrap64 (b.n + 1) = b.n + 1 :=
      wrap64_eq_self _ (by linarith) (by linarith)
    have hsq : (b.n + 1) * (b.n + 1) ≤ 922335506689 := by
      have := mul_le_mul hn2 hn2 hn1 (by norm_num : (0 : Int) ≤ 960383)
      linarith
    have hsq0 : 0 ≤ (b.n + 1) * (b.n + 1) := mul_nonneg hn1 hn1
    have hw2 : wrap64 ((b.n + 1) * (b.n + 1)) = (b.n + 1) * (b.n + 1) :=
      wrap64_eq_self _ (by linarith) (by linarith)
    have hw3 : wrap64 ((b.n + 1) * (b.n + 1) * 10) =
        (b.n + 1) * (b.n + 1) * 10 :=
      wrap64_eq_self _ (by linarith) (by linarith)
    have hw4 : wrap64 ((b.n + 1) * (b.n + 1) * 10 * 1000000) =
        (b.n + 1) * (b.n + 1) * 10 * 1000000 :=
      wrap64_eq_self _ (by linarith) (by linarith)
    have hassoc : (b.n + 1) * (b.n + 1) * 10 * 1000000 =
        (b.n + 1) * (b.n + 1) * 10000000 := by ring
    have hmin : (if (b.n + 1) * (b.n + 1) * 10000000 > b.maxBackoff
          then b.maxBackoff else (b.n + 1) * (b.n + 1) * 10000000) =
        min b.maxBackoff ((b.n + 1) * (b.n + 1) * 10000000) := by
      rw [min_def]
      split <;> split <;> omega
    simp only [backOff, Bool.not_true, Bool.false_eq_true, reduceIte,
      hw1, hw2, hw3, hw4]
    rw [hassoc, hmin]
  · intro d r hd0 h0 h1
    have hd : (0 : ℚ) ≤ (d : ℚ) := by exact_mod_cast hd0
    constructor
    · unfold scaleJitter
      apply mul_le_mul_of_nonneg_left _ hd
      linarith
    · unfold scaleJitter
      apply mul_le_mul_of_nonneg_left _ hd
      linarith

/-- Witness for C8: the in-range delay formula at the third consecutive
failure, and the jitter bounds at `d = 4`, `r = 1/3`. -/
theorem backoff_reset_and_delay_witness :
    backOff ⟨2, 1000000000⟩ true false =
      (⟨3, 1000000000⟩, some (min (1000000000 : Int) (3 * 3 * 10000000))) ∧
    ((4 : ℚ) * (1 / 2) ≤ scaleJitter 4 (1 / 3) ∧
      scaleJitter 4 (1 / 3) ≤ (4 : ℚ) * (3 / 2)) :=
  ⟨backoff_reset_and_delay.2.2.1 ⟨2, 1000000000⟩ (by norm_num) (by norm_num),
   backoff_reset_and_delay.2.2.2 4 (1 / 3) (by norm_num) (by norm_num)
     (by norm_num)⟩

end Pqx
